import Mathlib

/-!
Verification of the SFU Course Tracker prerequisite logic engine.

This file gives a shallow embedding, in Lean 4, of the core of the
repository's prerequisite engine:

* `backend/services/parser.py` — `PrerequisiteParser`: `_clean_string`,
  `_parse_expression`, `_parse_and_group`, `_parse_or_group`, `_parse_atom`,
  `_split_respecting_parens`, `_extract_courses`, `flatten_courses`, `parse`.
* `backend/services/validator.py` — `PrerequisiteValidator`: `_validate_tree`,
  `_normalize_course_id`, `validate_prerequisites`,
  `build_prerequisite_graph`, `get_prerequisite_chain`,
  `get_courses_enabled_by`.

Python strings are modelled as `List Char` (Lean `String` at the API
boundary); Python dict trees `{"type": "COURSE" | "AND" | "OR" | "UNKNOWN"}`
are modelled as the closed inductive `PrereqTree`; Python sets of strings are
modelled as lists with membership (set-level claims are stated via `∈`).
Case mapping (`str.upper`/`str.lower`) is modelled on ASCII letters, and
`str.isdigit`/`str.isalpha`/whitespace on their ASCII fragments, which is
exact for the course-catalog alphabet the code manipulates.
-/

namespace SFU

/-- Expression tree: closed sum of the four tagged-dict variants
`COURSE` / `AND` / `OR` / `UNKNOWN` used throughout `parser.py` and
`validator.py`. -/
inductive PrereqTree where
  | course : String → PrereqTree
  | and : List PrereqTree → PrereqTree
  | or : List PrereqTree → PrereqTree
  | unknown : String → PrereqTree

/-! ## Character helpers (ASCII models of the Python predicates) -/

/-- Whitespace, as Python's `\s` / `str.split()` on the ASCII range. -/
def isSpaceChar (c : Char) : Bool :=
  c = ' ' || c = '\t' || c = '\n' || c = '\r'

/-- ASCII `A`–`Z` (code points 65–90), phrased on `Char.toNat` so that the
case-arithmetic lemmas below are plain `Nat` facts. -/
def isUpperAZ (c : Char) : Bool := 65 ≤ c.toNat && c.toNat ≤ 90

/-- ASCII `a`–`z` (code points 97–122). -/
def isLowerAZ (c : Char) : Bool := 97 ≤ c.toNat && c.toNat ≤ 122

/-- ASCII `0`–`9` (code points 48–57), the model of `str.isdigit`. -/
def isDigit09 (c : Char) : Bool := 48 ≤ c.toNat && c.toNat ≤ 57

/-- Word character for the regex `\b` boundary: `[A-Za-z0-9_]`. -/
def isWordChar (c : Char) : Bool :=
  isUpperAZ c || isLowerAZ c || isDigit09 c || c = '_'

/-- ASCII model of `str.upper` on a single character. -/
def toUpperC (c : Char) : Char :=
  if isLowerAZ c then Char.ofNat (c.toNat - 32) else c

/-- ASCII model of `str.lower` on a single character. -/
def toLowerC (c : Char) : Char :=
  if isUpperAZ c then Char.ofNat (c.toNat + 32) else c

/-- Python `str.strip()`: drop leading and trailing whitespace. -/
def stripChars (s : List Char) : List Char :=
  ((s.dropWhile isSpaceChar).reverse.dropWhile isSpaceChar).reverse

/-! ## The tree evaluator (`PrerequisiteValidator._validate_tree`)

The Python function returns `(is_valid, missing_courses)`.  The `AND`
branch evaluates every child (no short-circuit) and extends `all_missing`
with the missing list of each unsatisfied child; the `OR` branch
short-circuits to `(True, [])` on the first satisfied child and otherwise
returns the deduplicated union of the children's missing lists
(`list(set(all_options))`, modelled as `List.dedup` — the claims about it
are set-level, so the dedup order is irrelevant); the final `else` branch
(any other `type`, in particular `UNKNOWN`) returns `(False, [])` —
the source comment reads `Unknown type - assume invalid`. -/

mutual

def validateTree : PrereqTree → List String → Bool × List String
  | .course id, comp => if id ∈ comp then (true, []) else (false, [id])
  | .and cs, comp => validateAnd cs comp
  | .or cs, comp =>
      if anySat cs comp then (true, [])
      else (false, (collectMissing cs comp).dedup)
  | .unknown _, _ => (false, [])

/-- The `AND` loop of `_validate_tree`: conjunction of child validity,
missing lists of the unsatisfied children concatenated in order. -/
def validateAnd : List PrereqTree → List String → Bool × List String
  | [], _ => (true, [])
  | t :: ts, comp =>
    let r := validateTree t comp
    let rr := validateAnd ts comp
    (r.1 && rr.1, (if r.1 then [] else r.2) ++ rr.2)

/-- First loop of the `OR` branch: is some child satisfied? -/
def anySat : List PrereqTree → List String → Bool
  | [], _ => false
  | t :: ts, comp => (validateTree t comp).1 || anySat ts comp

/-- Second loop of the `OR` branch: concatenation of every child's
missing list. -/
def collectMissing : List PrereqTree → List String → List String
  | [], _ => []
  | t :: ts, comp => (validateTree t comp).2 ++ collectMissing ts comp

end

/-! ## Course-id normalizer (`PrerequisiteValidator._normalize_course_id`) -/

/-- Python loop `for i, char in enumerate(course_id): if char.isdigit():
insert "-" at i; break`: insert a hyphen before the first digit, if any. -/
def insertHyphen : List Char → List Char
  | [] => []
  | c :: cs => if isDigit09 c then '-' :: c :: cs else c :: insertHyphen cs

/-- Body of `_normalize_course_id` on the character list:
`course_id.replace(" ", "").upper()`, then insert a hyphen at the first
digit if the string contains none. -/
def normalizeIdChars : List Char → List Char := fun s =>
  let t := (s.filter (fun c => c ≠ ' ')).map toUpperC
  if '-' ∈ t then t else insertHyphen t

/-- The validator's `_normalize_course_id`. -/
def normalizeCourseId (s : String) : String :=
  String.mk (normalizeIdChars s.toList)

/-! ## `validate_prerequisites`

The database session is modelled as a catalog: a list of
`(course id, parsed tree option)` rows; `select(Course).where(Course.id ==
target)` + `.first()` is the first row whose id equals the (normalized)
target.  `None`/falsy `prerequisites_logic` is `Option.none`. -/

/-- Result record of `validate_prerequisites` (the `prerequisite_tree`
field carries the stored tree). -/
structure ValidationResult where
  target_course : String
  is_valid : Bool
  missing_courses : List String
  prerequisite_tree : Option PrereqTree
  message : String


/-- Python `", ".join(missing)`. -/
def joinCommaSep : List String → String
  | [] => ""
  | [x] => x
  | x :: y :: rest => x ++ ", " ++ joinCommaSep (y :: rest)

/-- The validator's `validate_prerequisites`: normalize the target id and
every transcript entry, look the target up in the catalog, then evaluate
its tree (if any) against the normalized transcript set. -/
def validatePrerequisites (catalog : List (String × Option PrereqTree))
    (targetCourse : String) (transcript : List String) : ValidationResult :=
  let target := normalizeCourseId targetCourse
  let ts := transcript.map normalizeCourseId
  match catalog.find? (fun row => row.1 = target) with
  | none =>
      { target_course := target, is_valid := false, missing_courses := [],
        prerequisite_tree := none,
        message := "Course " ++ target ++ " not found" }
  | some (_, none) =>
      { target_course := target, is_valid := true, missing_courses := [],
        prerequisite_tree := none,
        message := target ++ " has no prerequisites" }
  | some (_, some tree) =>
      let r := validateTree tree ts
      { target_course := target, is_valid := r.1, missing_courses := r.2,
        prerequisite_tree := some tree,
        message :=
          if r.1 then "You meet all prerequisites for " ++ target
          else "Missing prerequisites: " ++ joinCommaSep r.2 }

/-! ## `flatten_courses` and the prerequisite graph -/

mutual

/-- The parser's `flatten_courses` traversal: pre-order walk appending each
`COURSE` id that is truthy (non-empty) and not already collected. -/
def flattenAcc : PrereqTree → List String → List String
  | .course c, acc => if c ≠ "" ∧ c ∉ acc then acc ++ [c] else acc
  | .and cs, acc => flattenAccList cs acc
  | .or cs, acc => flattenAccList cs acc
  | .unknown _, acc => acc

def flattenAccList : List PrereqTree → List String → List String
  | [], acc => acc
  | t :: ts, acc => flattenAccList ts (flattenAcc t acc)

end

/-- `flatten_courses(tree)`: `[]` for `None`, otherwise the traversal
starting from an empty accumulator. -/
def flattenCourses : Option PrereqTree → List String
  | none => []
  | some t => flattenAcc t []

/-- Directed graph over course-id strings, as built by
`build_prerequisite_graph` on a `networkx.DiGraph`: the node set and the
edge list `prerequisite → dependent`. -/
structure PrereqGraph where
  nodes : List String
  edges : List (String × String)

/-- Edges contributed by one catalog row (a row whose
`prerequisites_logic` is non-null): one edge `prereq → course.id` per
flattened course leaf. -/
def rowEdges (row : String × Option PrereqTree) : List (String × String) :=
  (flattenCourses row.2).map (fun p => (p, row.1))

/-- The validator's `build_prerequisite_graph`: for every catalog row with
a non-null tree, add the course as a node and an edge from each flattened
prerequisite to it (`networkx.add_edge` also adds both endpoints as
nodes). -/
def buildGraph (catalog : List (String × Option PrereqTree)) : PrereqGraph :=
  let rows := catalog.filter (fun row => row.2.isSome)
  let es := rows.flatMap rowEdges
  { nodes := (rows.map Prod.fst ++ es.flatMap (fun e => [e.1, e.2])).dedup,
    edges := es }

/-- Successors of a node in the edge list. -/
def succsOf (edges : List (String × String)) (x : String) : List String :=
  (edges.filter (fun e => e.1 = x)).map Prod.snd

/-- Fuel-bounded visited-set graph search for a directed path from the
top of the stack to `target` (the traversal `networkx` runs under both
`ancestors` and `descendants`; both reachability queries below are
phrased through this single function, with `x` reaching `y` meaning a
directed edge path `x → … → y`).  The fuel only discharges termination:
the search visits each node at most once. -/
def reachAux (edges : List (String × String)) (target : String) :
    Nat → List String → List String → Bool
  | 0, _, _ => false
  | _ + 1, [], _ => false
  | fuel + 1, x :: stack, visited =>
    if x = target then true
    else if x ∈ visited then reachAux edges target fuel stack visited
    else reachAux edges target fuel (succsOf edges x ++ stack) (x :: visited)

/-- Does a directed path `x → … → y` (possibly empty) exist? -/
def hasPath (g : PrereqGraph) (x y : String) : Bool :=
  reachAux g.edges y ((g.edges.length + 1) * (g.nodes.length + 1) + 1) [x] []

/-- The validator's `get_prerequisite_chain`: normalize, return `[]` when
the id is not a graph node, else `networkx.ancestors` — every node other
than the course itself with a directed path to it. -/
def getPrerequisiteChain (g : PrereqGraph) (courseId : String) :
    List String :=
  let c := normalizeCourseId courseId
  if c ∈ g.nodes then g.nodes.filter (fun b => b ≠ c && hasPath g b c)
  else []

/-- The validator's `get_courses_enabled_by`: normalize, return `[]` when
the id is not a graph node, else `networkx.descendants` — every node other
than the course itself with a directed path from it. -/
def getCoursesEnabledBy (g : PrereqGraph) (courseId : String) :
    List String :=
  let c := normalizeCourseId courseId
  if c ∈ g.nodes then g.nodes.filter (fun b => b ≠ c && hasPath g c b)
  else []

/-! ## Tree predicates used by the claims -/

mutual

/-- Does the tree consist of `Course`/`And`/`Or` nodes only (no `Unknown`
leaf)? -/
def pureTree : PrereqTree → Bool
  | .course _ => true
  | .and cs => pureList cs
  | .or cs => pureList cs
  | .unknown _ => false

def pureList : List PrereqTree → Bool
  | [] => true
  | t :: ts => pureTree t && pureList ts

end

mutual

/-- Every `And`/`Or` node of the tree has a number of children different
from one. -/
def noUnaryTree : PrereqTree → Bool
  | .course _ => true
  | .and cs => decide (cs.length ≠ 1) && noUnaryList cs
  | .or cs => decide (cs.length ≠ 1) && noUnaryList cs
  | .unknown _ => true

def noUnaryList : List PrereqTree → Bool
  | [] => true
  | t :: ts => noUnaryTree t && noUnaryList ts

end

mutual

/-- The arity invariant exactly as the claim states it: every `And`/`Or`
node has at least one child and no `And`/`Or` node has exactly one
child. -/
def claimedArityTree : PrereqTree → Bool
  | .course _ => true
  | .and cs => decide (1 ≤ cs.length) && decide (cs.length ≠ 1) && claimedArityList cs
  | .or cs => decide (1 ≤ cs.length) && decide (cs.length ≠ 1) && claimedArityList cs
  | .unknown _ => true

def claimedArityList : List PrereqTree → Bool
  | [] => true
  | t :: ts => claimedArityTree t && claimedArityList ts

end

/-! ## `_split_respecting_parens`

The Python loop walks the string with an integer `paren_depth`; at depth 0
an occurrence of the delimiter ends the current part (the delimiter's
characters are skipped without depth bookkeeping); at the end a non-empty
`current` is appended; finally every part is stripped and empty parts are
dropped.  The fuel is `|expr| + 1` — every step consumes at least one
character, so it never runs out. -/

/-- Does `s` start with the pattern `p` (first argument)? -/
def leadsWith : List Char → List Char → Bool
  | [], _ => true
  | _ :: _, [] => false
  | p :: ps, c :: cs => p = c && leadsWith ps cs

/-- Loop body of `_split_respecting_parens`; the delimiter is passed as a
head character plus tail so it is non-empty by construction (the source
only ever splits on `" and "`, `","` and `" or "`). -/
def splitGo (d : Char) (ds : List Char) :
    Nat → List Char → Int → List Char → List (List Char)
  | _, [], _, current => if current.isEmpty then [] else [current]
  | 0, s, _, current => [current ++ s]
  | fuel + 1, s@(c :: rest), depth, current =>
    if depth = 0 && leadsWith (d :: ds) s then
      current :: splitGo d ds fuel (s.drop (ds.length + 1)) 0 []
    else
      let depth' : Int :=
        if c = '(' then depth + 1 else if c = ')' then depth - 1 else depth
      splitGo d ds fuel rest depth' (current ++ [c])

/-- `_split_respecting_parens(expr, delimiter)`; the empty-delimiter case
is never exercised by the source. -/
def splitRP (expr : List Char) (delim : List Char) : List (List Char) :=
  match delim with
  | [] => [stripChars expr].filter (fun p => ¬ p.isEmpty)
  | d :: ds =>
    ((splitGo d ds (expr.length + 1) expr 0 []).map stripChars).filter
      (fun p => ¬ p.isEmpty)

/-! ## `_extract_courses`

Scanner for the compiled regex `\b([A-Z]{3,4})[\s-](\d{3}[A-Z]?)\b`
(no flags) and, in the dead inheritance branch, `\b(\d{3}[A-Z]?)\b`.
`finditer` semantics: starting positions are tried left to right;
matches are non-overlapping; scanning resumes right after a match. -/

/-- Word boundary before the next character, given the previous one. -/
def nonWordBefore : Option Char → Bool
  | none => true
  | some c => !isWordChar c

/-- Part `(\d{3}[A-Z]?)\b` of both course regexes: three digits, an
optional uppercase letter (greedy), then a word boundary.  When the
optional letter is present but the boundary fails, dropping the letter
cannot restore the boundary (the letter itself is a word character), so
the whole attempt fails. -/
def matchNumBody : List Char → Option (List Char × List Char)
  | d1 :: d2 :: d3 :: rest =>
    if isDigit09 d1 && isDigit09 d2 && isDigit09 d3 then
      match rest with
      | [] => some ([d1, d2, d3], [])
      | c :: rest2 =>
        if isUpperAZ c then
          match rest2 with
          | [] => some ([d1, d2, d3, c], [])
          | c2 :: _ =>
            if isWordChar c2 then none else some ([d1, d2, d3, c], rest2)
        else if isWordChar c then none
        else some ([d1, d2, d3], rest)
    else none
  | _ => none

/-- Part `[\s-](\d{3}[A-Z]?)\b`: one whitespace-or-hyphen separator, then
the number body. -/
def matchNumTail : List Char → Option (List Char × List Char)
  | sep :: rest =>
    if isSpaceChar sep || sep = '-' then matchNumBody rest else none
  | [] => none

/-- Attempt of the full-course regex at the current position.  `{3,4}` is
greedy: four uppercase letters are tried first; when a fourth uppercase
letter is present, backtracking to three letters always fails (the
separator position then holds that uppercase letter, which is neither
whitespace nor a hyphen), so it is not written out. -/
def matchCourseAt (prevWord : Bool) (s : List Char) :
    Option (List Char × List Char × List Char) :=
  if prevWord then none
  else
    match s with
    | a :: b :: c :: rest =>
      if isUpperAZ a && isUpperAZ b && isUpperAZ c then
        match rest with
        | d :: rest2 =>
          if isUpperAZ d then
            match matchNumTail rest2 with
            | some (num, r) => some ([a, b, c, d], num, r)
            | none => none
          else
            match matchNumTail rest with
            | some (num, r) => some ([a, b, c], num, r)
            | none => none
        | [] => none
      else none
    | _ => none

/-- `course_pattern.finditer`: scan left to right, resuming after each
match; after a match the previous character is its last character, always
a word character. -/
def findCoursesAux : Nat → Bool → List Char → List (List Char × List Char)
  | 0, _, _ => []
  | _ + 1, _, [] => []
  | fuel + 1, prevWord, s@(c :: rest) =>
    match matchCourseAt prevWord s with
    | some (dept, num, r) => (dept, num) :: findCoursesAux fuel true r
    | none => findCoursesAux fuel (isWordChar c) rest

def findCourseMatches (text : List Char) : List (List Char × List Char) :=
  findCoursesAux (text.length + 1) false text

/-- Attempt of the bare-number regex `\b(\d{3}[A-Z]?)\b` at the current
position. -/
def matchBareNumAt (prevWord : Bool) (s : List Char) :
    Option (List Char × List Char) :=
  if prevWord then none else matchNumBody s

def isAlphaC (c : Char) : Bool := isUpperAZ c || isLowerAZ c

/-- `number_pattern.finditer` plus the loop filter
`if pos > 0 and text[pos-1].isalpha(): continue` (redundant next to the
word boundary, kept for fidelity). -/
def findBareNumsAux : Nat → Option Char → List Char → List (List Char)
  | 0, _, _ => []
  | _ + 1, _, [] => []
  | fuel + 1, prev, s@(c :: rest) =>
    match matchBareNumAt (nonWordBefore prev = false) s with
    | some (num, r) =>
      let lastC := num.getLastD '0'
      if (match prev with | some p => isAlphaC p | none => false) then
        findBareNumsAux fuel (some lastC) r
      else num :: findBareNumsAux fuel (some lastC) r
    | none => findBareNumsAux fuel (some c) rest

def findBareNums (text : List Char) : List (List Char) :=
  findBareNumsAux (text.length + 1) none text

/-- Canonical id string a match yields: `f"{dept}-{number}"`. -/
def mkCourseId (dept num : List Char) : List Char := dept ++ '-' :: num

/-- The parser's `_extract_courses`.  `last_dept` is the department of the
last full match (`None` when there was none); the standalone-number branch
runs only when `last_dept` is set *and* `courses` is empty — a condition
that can never hold, since `last_dept` is only assigned together with an
append to `courses` (see `extractCourses_eq_matches` below). -/
def extractCourses (text : List Char) : List (List Char) :=
  let ms := findCourseMatches text
  let courses := ms.map (fun m => mkCourseId m.1 m.2)
  match ms.getLast? with
  | some m =>
    if courses.isEmpty then
      courses ++ (findBareNums text).map (fun num => mkCourseId m.1 num)
    else courses
  | none => courses

/-! ## `_clean_string`

Each `re.sub` of the source is modelled by a hand-rolled scanner for its
(fixed) pattern, run by a generic left-to-right substitution engine.
`re.sub` finds non-overlapping matches left to right over the original
string (word boundaries are judged on the original text) and scanning
resumes immediately after each match; lazy `.*?` pieces take the earliest
possible end, greedy optional pieces are tried present-first with the
one-step backtracks written out where they can matter; the `.` and `[^.]`
classes do not cross a newline. -/

/-- Case-insensitive `leadsWith`; the pattern is given in lowercase. -/
def ciLeads : List Char → List Char → Bool
  | [], _ => true
  | _ :: _, [] => false
  | p :: ps, c :: cs => p = toLowerC c && ciLeads ps cs

/-- Generic `re.sub` engine: `m prev s` returns the rest of the string
after a match of the pattern at the current position (`prev` is the
preceding original character, for `\b`), or `none`.  All patterns in play
consume at least one character, so fuel `|s| + 1` suffices; a zero-length
match is treated as no match to keep the scan moving. -/
def subAllAux (m : Option Char → List Char → Option (List Char))
    (repl : List Char) : Nat → Option Char → List Char → List Char
  | 0, _, s => s
  | _ + 1, _, [] => []
  | fuel + 1, prev, s@(c :: rest) =>
    match m prev s with
    | some r =>
      let k := s.length - r.length
      if k = 0 then c :: subAllAux m repl fuel (some c) rest
      else repl ++ subAllAux m repl fuel ((s.take k).getLast?) r
    | none => c :: subAllAux m repl fuel (some c) rest

def subAll (m : Option Char → List Char → Option (List Char))
    (repl : List Char) (s : List Char) : List Char :=
  subAllAux m repl (s.length + 1) none s

/-- First substitution, anchored: `^(Prerequisite|Corequisite|Pre-?req)s?:?\s*`
(ignore-case), alternatives in regex order (`Pre-?req` greedy: with the
hyphen first); once an alternative matches, `s?:?\s*` cannot fail. -/
def stripLabel (s : List Char) : List Char :=
  let cands := ["prerequisite".toList, "corequisite".toList,
                "pre-req".toList, "prereq".toList]
  match cands.find? (fun p => ciLeads p s) with
  | none => s
  | some p =>
    let r := s.drop p.length
    let r1 := match r with
      | c :: t => if toLowerC c = 's' then t else r
      | [] => r
    let r2 := match r1 with
      | c :: t => if c = ':' then t else r1
      | [] => r1
    r2.dropWhile isSpaceChar

/-- Lazy tail `.*?(?=\.|$)`: extend to just before the next `.` (not
consumed) or to the end; `.` never matches a newline. -/
def lazyToStop : List Char → Option (List Char)
  | [] => some []
  | s@(c :: rest) =>
    if c = '.' then some s
    else if c = '\n' then none
    else lazyToStop rest

/-- Lazy scan `.*?LIT` followed by the final lazy tail: at each position
try the literal and, if the continuation fails, keep scanning (regex
backtracking extends `.*?` one character at a time). -/
def scanLitThenStop (lit : List Char) : List Char → Option (List Char)
  | [] => none
  | s@(c :: rest) =>
    (if ciLeads lit s then lazyToStop (s.drop lit.length) else none).orElse
      (fun _ => if c = '\n' then none else scanLitThenStop lit rest)

/-- Middle of the exclusion pattern:
`.*?(may not|cannot).*?further credit.*?(?=\.|$)` (the two alternatives
start with different letters, so at most one fits a position). -/
def exclScanAlt : List Char → Option (List Char)
  | [] => none
  | s@(c :: rest) =>
    (if ciLeads "may not".toList s then
        scanLitThenStop "further credit".toList (s.drop 7)
      else if ciLeads "cannot".toList s then
        scanLitThenStop "further credit".toList (s.drop 6)
      else none).orElse
      (fun _ => if c = '\n' then none else exclScanAlt rest)

/-- Exclusion-clause pattern
`\.?\s+Students?\s+.*?(may not|cannot).*?further credit.*?(?=\.|$)`
(ignore-case).  `\.?` then `\s+`: if the dot is present but no whitespace
follows, the no-dot branch needs whitespace at the dot itself and fails,
so the choice is forced; likewise `\s+` runs are consumed maximally (a
shorter run leaves a whitespace character where a letter is required). -/
def exclusionMatch (_prev : Option Char) (s : List Char) :
    Option (List Char) :=
  let s1 := match s with | '.' :: t => t | _ => s
  let w := s1.takeWhile isSpaceChar
  if w.isEmpty then none
  else
    let s2 := s1.drop w.length
    if ciLeads "student".toList s2 then
      let s3 := s2.drop 7
      let s3' := match s3 with
        | c :: t => if toLowerC c = 's' then t else s3
        | [] => s3
      let w2 := s3'.takeWhile isSpaceChar
      if w2.isEmpty then none
      else exclScanAlt (s3'.drop w2.length)
    else none

/-- Is the character in `[A-B]` under ignore-case? -/
def isABc (c : Char) : Bool :=
  c = 'A' || c = 'B' || c = 'a' || c = 'b'

/-- Tail `[A-B][+-]?.*?(?=\.|$)` of the grade pattern. -/
def gradeABTail : List Char → Option (List Char)
  | c :: rest =>
    if isABc c then
      match rest with
      | p :: r2 => if p = '+' || p = '-' then lazyToStop r2 else lazyToStop rest
      | [] => some []
    else none
  | [] => none

/-- Tail `\s+(a\s+)?[A-B][+-]?.*?(?=\.|$)` after the keyword.  The
optional group `(a\s+)?` is greedy; when taking it makes `[A-B]` fail the
group is dropped (regex backtracking). -/
def gradeTail (s : List Char) : Option (List Char) :=
  let w := s.takeWhile isSpaceChar
  if w.isEmpty then none
  else
    let s5 := s.drop w.length
    match s5 with
    | c :: rest =>
      if toLowerC c = 'a' then
        let w2 := rest.takeWhile isSpaceChar
        if w2.isEmpty then gradeABTail s5
        else
          match gradeABTail (rest.drop w2.length) with
          | some r => some r
          | none => gradeABTail s5
      else gradeABTail s5
    | [] => none

/-- Middle `[^.]*?\b(at least|minimum|with)` of the grade pattern plus its
tail, with backtracking: a keyword occurrence whose tail fails is skipped
and the lazy scan continues one character further; `[^.]` never consumes a
period.  The three alternatives start with different letters. -/
def gradeScanKeyword (prev : Char) : List Char → Option (List Char)
  | [] => none
  | s@(c :: rest) =>
    (if !isWordChar prev then
        (if ciLeads "at least".toList s then gradeTail (s.drop 8)
         else if ciLeads "minimum".toList s then gradeTail (s.drop 7)
         else if ciLeads "with".toList s then gradeTail (s.drop 4)
         else none)
      else none).orElse
      (fun _ => if c = '.' then none else gradeScanKeyword c rest)

/-- Grade pattern
`\.\s*[A-Z][^.]*?\b(at least|minimum|with)\s+(a\s+)?[A-B][+-]?.*?(?=\.|$)`
(ignore-case; `[A-Z]` under ignore-case is any ASCII letter). -/
def gradeMatch (_prev : Option Char) (s : List Char) : Option (List Char) :=
  match s with
  | '.' :: s1 =>
    let w := s1.takeWhile isSpaceChar
    let s2 := s1.drop w.length
    match s2 with
    | c :: s3 => if isAlphaC c then gradeScanKeyword c s3 else none
    | [] => none
  | _ => none

/-- Pattern `\bOne\s+W\s+course,?\s*` (ignore-case). -/
def onewMatch (prev : Option Char) (s : List Char) : Option (List Char) :=
  if nonWordBefore prev && ciLeads "one".toList s then
    let s1 := s.drop 3
    let w1 := s1.takeWhile isSpaceChar
    if w1.isEmpty then none
    else
      let s2 := s1.drop w1.length
      if ciLeads "w".toList s2 then
        let s3 := s2.drop 1
        let w2 := s3.takeWhile isSpaceChar
        if w2.isEmpty then none
        else
          let s4 := s3.drop w2.length
          if ciLeads "course".toList s4 then
            let s5 := s4.drop 6
            let s6 := match s5 with | ',' :: t => t | _ => s5
            some (s6.dropWhile isSpaceChar)
          else none
      else none
  else none

/-- Word boundary on the right: next character absent or non-word. -/
def nonWordAt : List Char → Bool
  | [] => true
  | c :: _ => !isWordChar c

/-- Pattern `,\s*both\b` (ignore-case), replaced by nothing. -/
def commaBothMatch (_prev : Option Char) (s : List Char) :
    Option (List Char) :=
  match s with
  | ',' :: s1 =>
    let w := s1.takeWhile isSpaceChar
    let s2 := s1.drop w.length
    if ciLeads "both".toList s2 && nonWordAt (s2.drop 4) then
      some (s2.drop 4)
    else none
  | _ => none

/-- Pattern `\bboth\b` (ignore-case), replaced by `and`. -/
def bothMatch (prev : Option Char) (s : List Char) : Option (List Char) :=
  if nonWordBefore prev && ciLeads "both".toList s && nonWordAt (s.drop 4)
  then some (s.drop 4) else none

/-- Pattern `\b(AND)\b` (ignore-case), replaced by `and`. -/
def andTokenMatch (prev : Option Char) (s : List Char) :
    Option (List Char) :=
  if nonWordBefore prev && ciLeads "and".toList s && nonWordAt (s.drop 3)
  then some (s.drop 3) else none

/-- Pattern `\b(OR)\b` (ignore-case), replaced by `or`. -/
def orTokenMatch (prev : Option Char) (s : List Char) :
    Option (List Char) :=
  if nonWordBefore prev && ciLeads "or".toList s && nonWordAt (s.drop 2)
  then some (s.drop 2) else none

/-- Python `' '.join(s.split())`. -/
def joinWithSpace : List (List Char) → List Char
  | [] => []
  | [w] => w
  | w :: ws => w ++ ' ' :: joinWithSpace ws

def wsCollapse (s : List Char) : List Char :=
  joinWithSpace ((s.splitOnP isSpaceChar).filter (fun w => ¬ w.isEmpty))

/-- Python `s.rstrip('.,;')`. -/
def rstripPunct (s : List Char) : List Char :=
  (s.reverse.dropWhile (fun c => c = '.' || c = ',' || c = ';')).reverse

/-- The parser's `_clean_string`, substitutions in source order. -/
def cleanString (s : List Char) : List Char :=
  let s1 := stripLabel s
  let s2 := subAll exclusionMatch [] s1
  let s3 := subAll gradeMatch [] s2
  let s4 := subAll onewMatch [] s3
  let s5 := wsCollapse s4
  let s6 := subAll commaBothMatch [] s5
  let s7 := subAll bothMatch "and".toList s6
  let s8 := subAll andTokenMatch "and".toList s7
  let s9 := subAll orTokenMatch "or".toList s8
  rstripPunct s9

/-! ## The recursive-descent parser

`_parse_expression` → `_parse_and_group` → `_parse_or_group` →
`_parse_atom`, with parenthesized fragments re-entering `_parse_expression`
(from `_parse_or_group`) or `_parse_or_group` (from `_parse_atom`).  The
recursion is driven by a fuel argument, decremented at every call; the
string strictly shrinks whenever the chain loops back up (a parenthesis
pair is removed), so `4·|expr| + 8` fuel always suffices; an exhausted
fuel returns `none`, which no theorem below relies on. -/

/-- Python `expr.startswith('(') and expr.endswith(')')`. -/
def isParenWrapped (s : List Char) : Bool :=
  leadsWith ['('] s && s.getLastD ' ' = ')'

/-- Python `expr[1:-1].strip()`. -/
def innerOf (s : List Char) : List Char :=
  stripChars (s.drop 1).dropLast

/-- Tail of each group function:
`if len(children) == 1: return children[0]` else wrap the children with
the group's node constructor (also when the list is empty, exactly as the
source does). -/
def collapse (ctor : List PrereqTree → PrereqTree)
    (children : List PrereqTree) : Option PrereqTree :=
  match children with
  | [c] => some c
  | cs => some (ctor cs)

mutual

/-- The parser's `_parse_expression`. -/
def parseExprF : Nat → List Char → Option PrereqTree
  | 0, _ => none
  | fuel + 1, expr0 =>
    let expr := stripChars expr0
    let andParts := splitRP expr " and ".toList
    if 1 < andParts.length then
      collapse .and
        (andParts.filterMap (fun p => parseAndGroupF fuel (stripChars p)))
    else parseAndGroupF fuel expr

/-- The parser's `_parse_and_group`. -/
def parseAndGroupF : Nat → List Char → Option PrereqTree
  | 0, _ => none
  | fuel + 1, expr =>
    let commaParts := splitRP expr [',']
    if 1 < commaParts.length then
      collapse .and
        (commaParts.filterMap (fun p => parseOrGroupF fuel (stripChars p)))
    else parseOrGroupF fuel expr

/-- The parser's `_parse_or_group`. -/
def parseOrGroupF : Nat → List Char → Option PrereqTree
  | 0, _ => none
  | fuel + 1, expr0 =>
    let expr := stripChars expr0
    if isParenWrapped expr then parseExprF fuel (innerOf expr)
    else
      let orParts := splitRP expr " or ".toList
      if 1 < orParts.length then
        collapse .or
          (orParts.filterMap (fun p => parseAtomF fuel (stripChars p)))
      else parseAtomF fuel expr

/-- The parser's `_parse_atom`. -/
def parseAtomF : Nat → List Char → Option PrereqTree
  | 0, _ => none
  | fuel + 1, expr0 =>
    let expr := stripChars expr0
    if expr.isEmpty then none
    else if isParenWrapped expr then parseOrGroupF fuel (innerOf expr)
    else
      match extractCourses expr with
      | [] => some (.unknown (String.mk expr))
      | [c] => some (.course (String.mk c))
      | c1 :: c2 :: rest =>
        some (.or ((c1 :: c2 :: rest).map
          (fun c => PrereqTree.course (String.mk c))))

end

/-- The parser's `parse`: empty / whitespace-only input and input that
cleans to the empty string give `None`; otherwise parse the cleaned
string. -/
def parse (s : String) : Option PrereqTree :=
  let l := s.toList
  if l.isEmpty || (stripChars l).isEmpty then none
  else
    let cleaned := cleanString l
    if cleaned.isEmpty then none
    else parseExprF (4 * cleaned.length + 8) cleaned

/-!
# Theorems

First some infrastructure: character-case arithmetic, an induction
principle for the nested tree type, and basic lemmas about the mutual
evaluator functions.
-/

theorem toNat_ofNatAux (n : Nat) (h : n.isValidChar) :
    (Char.ofNatAux n h).toNat = n := rfl

theorem toNat_ofNat_valid (n : Nat) (h : n.isValidChar) :
    (Char.ofNat n).toNat = n := by
  simp only [Char.ofNat, dif_pos h, toNat_ofNatAux]

theorem toUpperC_idem (c : Char) : toUpperC (toUpperC c) = toUpperC c := by
  unfold toUpperC isLowerAZ
  split
  · next h =>
    simp only [Bool.and_eq_true, decide_eq_true_eq] at h
    have hv : (c.toNat - 32).isValidChar := Or.inl (by omega)
    have ht : (Char.ofNat (c.toNat - 32)).toNat = c.toNat - 32 :=
      toNat_ofNat_valid _ hv
    rw [if_neg]
    simp only [ht, Bool.and_eq_true, decide_eq_true_eq]
    omega
  · rfl

theorem toUpperC_ne_space (c : Char) (h : c ≠ ' ') : toUpperC c ≠ ' ' := by
  unfold toUpperC isLowerAZ
  split
  · next hl =>
    simp only [Bool.and_eq_true, decide_eq_true_eq] at hl
    intro heq
    have hv : (c.toNat - 32).isValidChar := Or.inl (by omega)
    have h32 : (Char.ofNat (c.toNat - 32)).toNat = (' ' : Char).toNat := by
      rw [heq]
    rw [toNat_ofNat_valid _ hv] at h32
    have : c.toNat - 32 = 32 := h32
    omega
  · exact h

/-- Induction principle for the nested inductive `PrereqTree`: for the
`And`/`Or` cases the hypothesis holds of every child. -/
theorem PrereqTree.myInduction (P : PrereqTree → Prop)
    (hc : ∀ s, P (.course s)) (hu : ∀ s, P (.unknown s))
    (ha : ∀ cs, (∀ c ∈ cs, P c) → P (.and cs))
    (ho : ∀ cs, (∀ c ∈ cs, P c) → P (.or cs)) : ∀ t, P t := fun t =>
  PrereqTree.rec (motive_1 := P) (motive_2 := fun cs => ∀ c ∈ cs, P c)
    hc (fun cs ih => ha cs ih) (fun cs ih => ho cs ih) hu
    (fun c hmem => absurd hmem (List.not_mem_nil c))
    (fun hd tl ph pt c hmem => by
      rcases List.mem_cons.mp hmem with h | h
      · exact h ▸ ph
      · exact pt c h) t

/-! ## Lemmas for the course-id normalizer -/

theorem mem_insertHyphen {c : Char} {t : List Char}
    (h : c ∈ insertHyphen t) : c ∈ t ∨ c = '-' := by
  induction t with
  | nil => simp [insertHyphen] at h
  | cons a t ih =>
    unfold insertHyphen at h
    split at h
    · rcases List.mem_cons.mp h with h1 | h1
      · exact Or.inr h1
      · exact Or.inl h1
    · rcases List.mem_cons.mp h with h1 | h1
      · exact Or.inl (h1 ▸ List.mem_cons_self a t)
      · rcases ih h1 with h2 | h2
        · exact Or.inl (List.mem_cons_of_mem a h2)
        · exact Or.inr h2

theorem insertHyphen_self_or_mem (t : List Char) :
    insertHyphen t = t ∨ '-' ∈ insertHyphen t := by
  induction t with
  | nil => exact Or.inl rfl
  | cons a t ih =>
    unfold insertHyphen
    split
    · exact Or.inr (List.mem_cons_self _ _)
    · rcases ih with h | h
      · exact Or.inl (by rw [h])
      · exact Or.inr (List.mem_cons_of_mem a h)

theorem normalizeIdChars_idem (l : List Char) :
    normalizeIdChars (normalizeIdChars l) = normalizeIdChars l := by
  unfold normalizeIdChars
  set t := (l.filter (fun c => c ≠ ' ')).map toUpperC with ht
  have hmem : ∀ c ∈ t, c ≠ ' ' ∧ toUpperC c = c := by
    intro c hc
    rw [ht] at hc
    simp only [List.mem_map, List.mem_filter] at hc
    obtain ⟨c0, ⟨_, hne⟩, rfl⟩ := hc
    exact ⟨toUpperC_ne_space c0 (by simpa using hne), toUpperC_idem c0⟩
  by_cases hd : '-' ∈ t
  · simp only [if_pos hd]
    have hf : t.filter (fun c => decide (c ≠ ' ')) = t :=
      List.filter_eq_self.mpr (fun c hc => by
        simpa using (hmem c hc).1)
    have hm : t.map toUpperC = t := by
      have h2 := List.map_congr_left (l := t) (f := toUpperC) (g := id)
        (fun c hc => (hmem c hc).2)
      simpa using h2
    rw [hf, hm, if_pos hd]
  · simp only [if_neg hd]
    have hsub : ∀ c ∈ insertHyphen t, c ≠ ' ' ∧ toUpperC c = c := by
      intro c hc
      rcases mem_insertHyphen hc with h | h
      · exact hmem c h
      · subst h; exact ⟨by decide, by decide⟩
    have hf : (insertHyphen t).filter (fun c => decide (c ≠ ' ')) =
        insertHyphen t :=
      List.filter_eq_self.mpr (fun c hc => by simpa using (hsub c hc).1)
    have hm : (insertHyphen t).map toUpperC = insertHyphen t := by
      have h2 := List.map_congr_left (l := insertHyphen t) (f := toUpperC)
        (g := id) (fun c hc => (hsub c hc).2)
      simpa using h2
    rw [hf, hm]
    rcases insertHyphen_self_or_mem t with he | hin
    · rw [he, if_neg hd, he]
    · rw [if_pos hin]

theorem toList_mk (l : List Char) : (String.mk l).toList = l := rfl

/-- Claim C9 — the course-id normalizer is idempotent, and an
already-canonical `DEPT-NUMBER` id is returned unchanged. -/
theorem normalizeCourseId_idempotent :
    (∀ s : String, normalizeCourseId (normalizeCourseId s) =
      normalizeCourseId s) ∧
    normalizeCourseId "CMPT-120" = "CMPT-120" := by
  constructor
  · intro s
    unfold normalizeCourseId
    rw [toList_mk]
    rw [normalizeIdChars_idem]
  · rfl

/-! ## Lemmas about the evaluator -/

theorem validateTree_and (cs : List PrereqTree) (comp : List String) :
    validateTree (.and cs) comp = validateAnd cs comp := by
  simp [validateTree]

theorem validateAnd_fst (cs : List PrereqTree) (comp : List String) :
    (validateAnd cs comp).1 = cs.all (fun c => (validateTree c comp).1) := by
  induction cs with
  | nil => simp [validateAnd]
  | cons t ts ih => simp [validateAnd, ih]

theorem anySat_eq (cs : List PrereqTree) (comp : List String) :
    anySat cs comp = cs.any (fun c => (validateTree c comp).1) := by
  induction cs with
  | nil => simp [anySat]
  | cons t ts ih => simp [anySat, ih]

theorem validateAnd_snd_of_fst (cs : List PrereqTree) (comp : List String)
    (h : (validateAnd cs comp).1 = true) : (validateAnd cs comp).2 = [] := by
  induction cs with
  | nil => simp [validateAnd]
  | cons t ts ih =>
    simp only [validateAnd, Bool.and_eq_true] at h ⊢
    rw [if_pos h.1, ih h.2]
    rfl

/-- A satisfied subtree reports an empty missing list. -/
theorem validateTree_snd_of_fst (t : PrereqTree) (comp : List String)
    (h : (validateTree t comp).1 = true) : (validateTree t comp).2 = [] := by
  cases t with
  | course s =>
    by_cases hm : s ∈ comp
    · simp [validateTree, hm]
    · simp [validateTree, hm] at h
  | and cs =>
    rw [validateTree_and] at h ⊢
    exact validateAnd_snd_of_fst cs comp h
  | or cs =>
    by_cases ha : anySat cs comp
    · simp [validateTree, ha]
    · simp [validateTree, ha] at h
  | unknown s => simp [validateTree] at h

theorem validateAnd_snd_mem (cs : List PrereqTree) (comp : List String)
    (x : String) :
    x ∈ (validateAnd cs comp).2 ↔ ∃ c ∈ cs, x ∈ (validateTree c comp).2 := by
  induction cs with
  | nil => simp [validateAnd]
  | cons t ts ih =>
    simp only [validateAnd, List.mem_append, List.mem_cons]
    constructor
    · intro h
      rcases h with h | h
      · split at h
        · simp at h
        · exact ⟨t, Or.inl rfl, h⟩
      · obtain ⟨c, hc, hx⟩ := ih.mp h
        exact ⟨c, Or.inr hc, hx⟩
    · rintro ⟨c, hc | hc, hx⟩
      · subst hc
        left
        split
        · next hv => rw [validateTree_snd_of_fst c comp hv] at hx; simp at hx
        · exact hx
      · exact Or.inr (ih.mpr ⟨c, hc, hx⟩)

theorem pureList_iff (cs : List PrereqTree) :
    pureList cs = true ↔ ∀ c ∈ cs, pureTree c = true := by
  induction cs with
  | nil => simp [pureList]
  | cons t ts ih => simp [pureList, ih]

/-- Claim C1, counterexample: on an `Unknown` leaf the evaluator does
*not* return satisfied — `_validate_tree` reaches its final `else` branch
(`validator.py` lines 176–178) and reports `(False, [])`. -/
theorem unknownLeaf_not_satisfied :
    ¬ ((validateTree (.unknown "recommended background") []).1 = true) := by
  decide

/-- Claim C1, amended: for every `Unknown` leaf and every transcript the
evaluator returns satisfied = `false` with an empty missing list, so
replacing a satisfied subtree by an `Unknown` leaf *can* turn a satisfied
evaluation into unsatisfied. -/
theorem unknownLeaf_evaluates_false :
    ∀ (text : String) (transcript : List String),
      validateTree (.unknown text) transcript = (false, []) :=
  fun _ _ => rfl

/-- Claim C6 — an `And` node is satisfied iff every child is satisfied,
its missing set is the union of the children's missing sets (evaluation
does not short-circuit: every child contributes), and the concrete
scenario `evaluate(And[Course(A), Course(B)], {A}) = (false, {B})`. -/
theorem andNode_semantics :
    (∀ (cs : List PrereqTree) (comp : List String),
      ((validateTree (.and cs) comp).1 = true ↔
        ∀ c ∈ cs, (validateTree c comp).1 = true) ∧
      (∀ x, x ∈ (validateTree (.and cs) comp).2 ↔
        ∃ c ∈ cs, x ∈ (validateTree c comp).2)) ∧
    validateTree (.and [.course "A", .course "B"]) ["A"] = (false, ["B"]) := by
  refine ⟨fun cs comp => ⟨?_, fun x => ?_⟩, by decide⟩
  · rw [validateTree_and, validateAnd_fst, List.all_eq_true]
  · rw [validateTree_and]
    exact validateAnd_snd_mem cs comp x

/-- Claim C5 — for trees of `And`/`Or`/`Course` nodes only, evaluation is
monotone in the transcript: enlarging the completed set never turns a
satisfied result into unsatisfied. -/
theorem evaluate_monotone (t : PrereqTree) (T T' : List String)
    (hpure : pureTree t = true) (hsub : ∀ x ∈ T, x ∈ T')
    (hsat : (validateTree t T).1 = true) : (validateTree t T').1 = true := by
  revert hpure hsat
  refine PrereqTree.myInduction
    (fun t => pureTree t = true → (validateTree t T).1 = true →
      (validateTree t T').1 = true) ?_ ?_ ?_ ?_ t
  · intro s _ hs
    by_cases hm : s ∈ T
    · simp [validateTree, hsub s hm]
    · simp [validateTree, hm] at hs
  · intro s hp
    simp [pureTree] at hp
  · intro cs ih hp hs
    rw [validateTree_and, validateAnd_fst, List.all_eq_true] at hs ⊢
    rw [pureTree, pureList_iff] at hp
    exact fun c hc => ih c hc (hp c hc) (hs c hc)
  · intro cs ih hp hs
    rw [pureTree, pureList_iff] at hp
    by_cases ha : anySat cs T
    · rw [anySat_eq, List.any_eq_true] at ha
      obtain ⟨c, hc, hcs⟩ := ha
      have := ih c hc (hp c hc) hcs
      have hT' : anySat cs T' = true := by
        rw [anySat_eq, List.any_eq_true]
        exact ⟨c, hc, this⟩
      simp [validateTree, hT']
    · simp [validateTree, ha] at hs

/-- Witness for `evaluate_monotone` at a concrete pure tree and a concrete
transcript extension. -/
theorem evaluate_monotone_witness :
    pureTree (.or [.course "CMPT-120"]) = true ∧
    (∀ x ∈ ["CMPT-120"], x ∈ ["CMPT-120", "MATH-151"]) ∧
    (validateTree (.or [.course "CMPT-120"]) ["CMPT-120", "MATH-151"]).1
      = true :=
  ⟨by decide, by decide,
    evaluate_monotone (.or [.course "CMPT-120"]) ["CMPT-120"]
      ["CMPT-120", "MATH-151"] (by decide) (by decide) (by decide)⟩

/-- Claim C10 — `validate_prerequisites` is invariant under course-id
formatting of the target and of the transcript entries: both are
normalized before the lookup and the tree evaluation, so replacing either
by variants with the same normal form leaves the entire result
unchanged. -/
theorem validate_formatting_invariant
    (catalog : List (String × Option PrereqTree))
    (target target' : String) (ts ts' : List String)
    (h1 : normalizeCourseId target = normalizeCourseId target')
    (h2 : ts.map normalizeCourseId = ts'.map normalizeCourseId) :
    validatePrerequisites catalog target ts =
      validatePrerequisites catalog target' ts' := by
  unfold validatePrerequisites
  rw [h1, h2]

/-- Witness for `validate_formatting_invariant`: extra space, lowercase
and missing-hyphen variants of target and transcript entry. -/
theorem validate_formatting_invariant_witness :
    normalizeCourseId "CMPT 300" = normalizeCourseId "cmpt-300" ∧
    ["cmpt120"].map normalizeCourseId = ["CMPT 120"].map normalizeCourseId ∧
    validatePrerequisites [("CMPT-300", some (.course "CMPT-120"))]
        "CMPT 300" ["cmpt120"] =
      validatePrerequisites [("CMPT-300", some (.course "CMPT-120"))]
        "cmpt-300" ["CMPT 120"] :=
  ⟨rfl, rfl,
    validate_formatting_invariant [("CMPT-300", some (.course "CMPT-120"))]
      "CMPT 300" "cmpt-300" ["cmpt120"] ["CMPT 120"] rfl rfl⟩

/-- Claim C7 — a course id that is not a node of the built prerequisite
graph makes both reachability queries return the empty list (both are
total functions: no exception is modelled or needed). -/
theorem absent_course_graph_queries
    (catalog : List (String × Option PrereqTree)) (cid : String)
    (h : normalizeCourseId cid ∉ (buildGraph catalog).nodes) :
    getPrerequisiteChain (buildGraph catalog) cid = [] ∧
    getCoursesEnabledBy (buildGraph catalog) cid = [] := by
  unfold getPrerequisiteChain getCoursesEnabledBy
  rw [if_neg h, if_neg h]
  exact ⟨rfl, rfl⟩

/-- Witness for `absent_course_graph_queries` on a one-row catalog and an
absent course id. -/
theorem absent_course_graph_queries_witness :
    normalizeCourseId "MATH-999" ∉
      (buildGraph [("CMPT-225", some (.course "CMPT-120"))]).nodes ∧
    getPrerequisiteChain (buildGraph [("CMPT-225", some (.course "CMPT-120"))])
      "MATH-999" = [] ∧
    getCoursesEnabledBy (buildGraph [("CMPT-225", some (.course "CMPT-120"))])
      "MATH-999" = [] := by
  refine ⟨by decide, ?_⟩
  exact absent_course_graph_queries [("CMPT-225", some (.course "CMPT-120"))]
    "MATH-999" (by decide)

/-- Claim C8 — on any built graph, for canonical course ids `A` and `B`,
`B ∈ prerequisite_chain(A)` iff `A ∈ unlocked_by(B)`: both sides reduce to
"`A` and `B` are graph nodes, `A ≠ B`, and a directed path `B → … → A`
exists". -/
theorem chain_unlocked_inverse
    (catalog : List (String × Option PrereqTree)) (A B : String)
    (hA : normalizeCourseId A = A) (hB : normalizeCourseId B = B) :
    B ∈ getPrerequisiteChain (buildGraph catalog) A ↔
      A ∈ getCoursesEnabledBy (buildGraph catalog) B := by
  unfold getPrerequisiteChain getCoursesEnabledBy
  rw [hA, hB]
  by_cases hAn : A ∈ (buildGraph catalog).nodes <;>
    by_cases hBn : B ∈ (buildGraph catalog).nodes
  · rw [if_pos hAn, if_pos hBn]
    simp only [List.mem_filter, Bool.and_eq_true, decide_eq_true_eq]
    constructor
    · rintro ⟨_, hne, hp⟩
      exact ⟨hAn, Ne.symm hne, hp⟩
    · rintro ⟨_, hne, hp⟩
      exact ⟨hBn, Ne.symm hne, hp⟩
  · rw [if_pos hAn, if_neg hBn]
    simp only [List.not_mem_nil, iff_false, List.mem_filter]
    exact fun h => hBn h.1
  · rw [if_neg hAn, if_pos hBn]
    simp only [List.not_mem_nil, false_iff, List.mem_filter]
    exact fun h => hAn h.1
  · rw [if_neg hAn, if_neg hBn]
    simp

/-- Witness for `chain_unlocked_inverse` on a one-edge graph. -/
theorem chain_unlocked_inverse_witness :
    normalizeCourseId "CMPT-225" = "CMPT-225" ∧
    normalizeCourseId "CMPT-120" = "CMPT-120" ∧
    ("CMPT-120" ∈ getPrerequisiteChain
        (buildGraph [("CMPT-225", some (.course "CMPT-120"))]) "CMPT-225" ↔
      "CMPT-225" ∈ getCoursesEnabledBy
        (buildGraph [("CMPT-225", some (.course "CMPT-120"))]) "CMPT-120") :=
  ⟨rfl, rfl,
    chain_unlocked_inverse [("CMPT-225", some (.course "CMPT-120"))]
      "CMPT-225" "CMPT-120" rfl rfl⟩

/-! ## Parser claims

First the dead-code fact behind claim C2: the standalone-number
inheritance branch of `_extract_courses` never runs, because `last_dept`
is only ever assigned in the same iteration that appends to `courses`, so
`last_dept and not courses` is unsatisfiable. -/

theorem extractCourses_eq_matches (text : List Char) :
    extractCourses text =
      (findCourseMatches text).map (fun m => mkCourseId m.1 m.2) := by
  simp only [extractCourses]
  cases h : (findCourseMatches text).getLast? with
  | none => rfl
  | some m =>
    have hne : findCourseMatches text ≠ [] := by
      intro he
      rw [he] at h
      simp at h
    obtain ⟨a, l, he⟩ : ∃ a l, findCourseMatches text = a :: l := by
      rcases hx : findCourseMatches text with _ | ⟨a, l⟩
      · exact absurd hx hne
      · exact ⟨a, l, rfl⟩
    rw [he]
    simp

/-- Claim C2 — what `parse("CMPT 120 or 125 or 130")` actually returns:
the `" or "` split isolates the bare numbers `125` and `130` into their
own atoms before course extraction, and the department-inheritance branch
of `_extract_courses` is dead code, so the bare numbers become `Unknown`
leaves instead of inheriting `CMPT`. -/
theorem parse_shorthand_no_inheritance :
    parse "CMPT 120 or 125 or 130" =
      some (.or [.course "CMPT-120", .unknown "125", .unknown "130"]) := rfl

/-- Claim C3, counterexample: `"(), CMPT 120 or CMPT 125"` has no
top-level `" and "` and splits on commas into two parts, yet `parse`
returns an `Or` node — the `"()"` part parses to nothing, and the
single surviving child (an `Or`) is returned by the one-child collapse. -/
theorem commaGroup_or_counterexample :
    (splitRP (cleanString "(), CMPT 120 or CMPT 125".toList)
      " and ".toList).length = 1 ∧
    (splitRP (cleanString "(), CMPT 120 or CMPT 125".toList) [',']).length
      = 2 ∧
    parse "(), CMPT 120 or CMPT 125" =
      some (.or [.course "CMPT-120", .course "CMPT-125"]) :=
  ⟨rfl, rfl, rfl⟩

/-- Claim C3, amended — `parse("CMPT 120, MATH 151")` =
`And[Course(CMPT-120), Course(MATH-151)]`; and in general, when a
fragment splits on commas into two or more parts of which at least two
parse successfully, `_parse_and_group` returns an `And` node over exactly
the parsed parts (an `Or` can only surface through the one-child collapse
when all but one part fail to parse — it is never an `Or` over the comma
parts). -/
theorem commaGroup_and_semantics :
    (parse "CMPT 120, MATH 151" =
      some (.and [.course "CMPT-120", .course "MATH-151"])) ∧
    (∀ (fuel : Nat) (expr : List Char),
      1 < (splitRP expr [',']).length →
      2 ≤ ((splitRP expr [',']).filterMap
        (fun p => parseOrGroupF fuel (stripChars p))).length →
      parseAndGroupF (fuel + 1) expr =
        some (.and ((splitRP expr [',']).filterMap
          (fun p => parseOrGroupF fuel (stripChars p))))) := by
  refine ⟨rfl, fun fuel expr h1 h2 => ?_⟩
  simp only [parseAndGroupF, if_pos h1]
  rcases hch : (splitRP expr [',']).filterMap
      (fun p => parseOrGroupF fuel (stripChars p)) with _ | ⟨a, _ | ⟨b, l⟩⟩
  · rw [hch] at h2
    simp at h2
  · rw [hch] at h2
    simp at h2
  · rfl

/-- Witness for the general part of `commaGroup_and_semantics` at the
scenario input. -/
theorem commaGroup_and_semantics_witness :
    1 < (splitRP "CMPT 120, MATH 151".toList [',']).length ∧
    2 ≤ ((splitRP "CMPT 120, MATH 151".toList [',']).filterMap
      (fun p => parseOrGroupF 80 (stripChars p))).length ∧
    parseAndGroupF 81 "CMPT 120, MATH 151".toList =
      some (.and ((splitRP "CMPT 120, MATH 151".toList [',']).filterMap
        (fun p => parseOrGroupF 80 (stripChars p)))) :=
  ⟨by decide, by decide,
    commaGroup_and_semantics.2 80 "CMPT 120, MATH 151".toList
      (by decide) (by decide)⟩

/-- Claim C4, counterexample: `parse("(), ()")` returns an `And` node
with an empty child list — both comma parts parse to nothing, and the
group code emits `{"type": "AND", "children": []}` — violating the
claimed "every `And`/`Or` node has at least one child" invariant. -/
theorem parse_empty_and_node :
    parse "(), ()" = some (.and []) ∧ claimedArityTree (.and []) = false :=
  ⟨rfl, rfl⟩

theorem noUnaryList_iff (cs : List PrereqTree) :
    noUnaryList cs = true ↔ ∀ c ∈ cs, noUnaryTree c = true := by
  induction cs with
  | nil => simp [noUnaryList]
  | cons t ts ih => simp [noUnaryList, ih]

theorem noUnary_and_node (cs : List PrereqTree) (h1 : cs.length ≠ 1)
    (h2 : ∀ c ∈ cs, noUnaryTree c = true) :
    noUnaryTree (.and cs) = true := by
  simp only [noUnaryTree, noUnaryList_iff, h1, Bool.and_eq_true,
    decide_eq_true_eq]
  exact ⟨h1, h2⟩

theorem noUnary_or_node (cs : List PrereqTree) (h1 : cs.length ≠ 1)
    (h2 : ∀ c ∈ cs, noUnaryTree c = true) :
    noUnaryTree (.or cs) = true := by
  simp only [noUnaryTree, noUnaryList_iff, h1, Bool.and_eq_true,
    decide_eq_true_eq]
  exact ⟨h1, h2⟩

theorem collapse_noUnary (ctor : List PrereqTree → PrereqTree)
    (hctor : ∀ cs, cs.length ≠ 1 → (∀ c ∈ cs, noUnaryTree c = true) →
      noUnaryTree (ctor cs) = true)
    (children : List PrereqTree)
    (hall : ∀ c ∈ children, noUnaryTree c = true) (t : PrereqTree)
    (h : collapse ctor children = some t) : noUnaryTree t = true := by
  match children, h with
  | [], h =>
    simp only [collapse, Option.some.injEq] at h
    exact h ▸ hctor [] (by simp) (by simp)
  | [c], h =>
    simp only [collapse, Option.some.injEq] at h
    exact h ▸ hall c (by simp)
  | a :: b :: l, h =>
    simp only [collapse, Option.some.injEq] at h
    exact h ▸ hctor (a :: b :: l) (by simp) hall

/-- Every tree any of the four parse functions returns, at any fuel, has
no `And`/`Or` node with exactly one child: emitted group nodes are guarded
by the one-child collapse, and the implicit-`Or` of a multi-course atom
always has at least two children. -/
theorem parser_noUnary (fuel : Nat) :
    (∀ e t, parseExprF fuel e = some t → noUnaryTree t = true) ∧
    (∀ e t, parseAndGroupF fuel e = some t → noUnaryTree t = true) ∧
    (∀ e t, parseOrGroupF fuel e = some t → noUnaryTree t = true) ∧
    (∀ e t, parseAtomF fuel e = some t → noUnaryTree t = true) := by
  induction fuel with
  | zero =>
    refine ⟨?_, ?_, ?_, ?_⟩ <;> intro e t h <;>
      simp [parseExprF, parseAndGroupF, parseOrGroupF, parseAtomF] at h
  | succ n ih =>
    obtain ⟨ihE, ihA, ihO, ihT⟩ := ih
    refine ⟨?_, ?_, ?_, ?_⟩
    · intro e t h
      simp only [parseExprF] at h
      split at h
      · refine collapse_noUnary _ noUnary_and_node _ (fun c hc => ?_) t h
        obtain ⟨p, _, hp⟩ := List.mem_filterMap.mp hc
        exact ihA _ c hp
      · exact ihA _ t h
    · intro e t h
      simp only [parseAndGroupF] at h
      split at h
      · refine collapse_noUnary _ noUnary_and_node _ (fun c hc => ?_) t h
        obtain ⟨p, _, hp⟩ := List.mem_filterMap.mp hc
        exact ihO _ c hp
      · exact ihO _ t h
    · intro e t h
      simp only [parseOrGroupF] at h
      split at h
      · exact ihE _ t h
      · split at h
        · refine collapse_noUnary _ noUnary_or_node _ (fun c hc => ?_) t h
          obtain ⟨p, _, hp⟩ := List.mem_filterMap.mp hc
          exact ihT _ c hp
        · exact ihT _ t h
    · intro e t h
      simp only [parseAtomF] at h
      split at h
      · simp at h
      · split at h
        · exact ihO _ t h
        · split at h
          · simp only [Option.some.injEq] at h
            exact h ▸ rfl
          · simp only [Option.some.injEq] at h
            exact h ▸ rfl
          · simp only [Option.some.injEq] at h
            subst h
            refine noUnary_or_node _ (by simp) ?_
            intro c hc
            simp only [List.mem_map] at hc
            obtain ⟨x, _, rfl⟩ := hc
            rfl

/-- Claim C4, amended — whenever `parse` returns a tree, no `And` or `Or`
node in it has exactly one child (single-child groups collapse to the
child); the "at least one child" half of the claimed invariant fails:
an `And` node with an empty child list is reachable
(`parse_empty_and_node`). -/
theorem parse_noUnary (s : String) (t : PrereqTree)
    (h : parse s = some t) : noUnaryTree t = true := by
  simp only [parse] at h
  split at h
  · simp at h
  · split at h
    · simp at h
    · exact (parser_noUnary _).1 _ _ h

/-- Witness for `parse_noUnary` at the comma-scenario input. -/
theorem parse_noUnary_witness :
    noUnaryTree (.and [.course "CMPT-120", .course "MATH-151"]) = true :=
  parse_noUnary "CMPT 120, MATH 151"
    (.and [.course "CMPT-120", .course "MATH-151"]) rfl

end SFU
